import Mathlib

/-!
Verification of the SPH solver core (smoothing kernels, particle-field
estimators, parallel partitioner, scalar root finders) against its
natural-language specification.

Real arithmetic of the program is embedded as exact arithmetic: `ℚ` where
the development must evaluate on concrete inputs, `ℝ` for the kernel
calculus (norms, limits).  The machine-precision constant
`small_number_v` (cbrt of the machine epsilon in the source) is kept
abstract as a parameter `small`.
-/

namespace SPHQ

/-! ## Root finding (src/source/tit/core/math.hpp) -/

/-- Status of a Newton-Raphson solve (`NewtonRaphsonStatus` in math.hpp). -/
inductive NRStatus where
  | success
  | fail_max_iter
  | fail_zero_deriv
deriving DecidableEq, Repr

/-- Newton-Raphson solver from math.hpp.  The C++ takes the estimate `x` by
reference together with a zero-argument callable `f` that implicitly depends
on `x` and may mutate captured state; here the captured state is threaded
explicitly as `s : σ`, and `f` returns the new state together with the
residual and the derivative.  `small` stands for the machine constant
`small_number_v` used by `is_small`; `eps` is the tolerance argument.
Returns the status together with the final state and estimate. -/
def newton_raphson {σ : Type} (f : σ → ℚ → σ × ℚ × ℚ) (small eps : ℚ) :
    ℕ → σ → ℚ → NRStatus × σ × ℚ
  | 0, s, x => (.fail_max_iter, s, x)
  | max_iter + 1, s, x =>
    let r := f s x
    if |r.2.1| ≤ eps then (.success, r.1, x)
    else if |r.2.2| ≤ small then (.fail_zero_deriv, r.1, x)
    else newton_raphson f small eps max_iter r.1 (x - r.2.1 / r.2.2)

/-- Orbit of the Newton iteration: the state/estimate pair reached after `k`
unconditional update steps `x := x - y / dy`, used to characterise
`newton_raphson` runs. -/
def nrOrbit {σ : Type} (f : σ → ℚ → σ × ℚ × ℚ) (s : σ) (x : ℚ) : ℕ → σ × ℚ
  | 0 => (s, x)
  | k + 1 =>
    let p := nrOrbit f s x k
    let r := f p.1 p.2
    (r.1, p.2 - r.2.1 / r.2.2)

/-- Residual produced by `f` at the `k`-th point of the Newton orbit. -/
def nrRes {σ : Type} (f : σ → ℚ → σ × ℚ × ℚ) (s : σ) (x : ℚ) (k : ℕ) : ℚ :=
  (f (nrOrbit f s x k).1 (nrOrbit f s x k).2).2.1

/-- Derivative produced by `f` at the `k`-th point of the Newton orbit. -/
def nrDer {σ : Type} (f : σ → ℚ → σ × ℚ × ℚ) (s : σ) (x : ℚ) (k : ℕ) : ℚ :=
  (f (nrOrbit f s x k).1 (nrOrbit f s x k).2).2.2

/-- Status of a bisection solve (`BisectionStatus` in math.hpp). -/
inductive BisectStatus where
  | success
  | fail_max_iter
  | failure_sign
deriving DecidableEq, Repr

/-- Sign of a value, as in math.hpp: `(0 < a) - (a < 0)`. -/
def sign (a : ℚ) : ℤ :=
  (if 0 < a then 1 else 0) - (if a < 0 then 1 else 0)

/-- Loop of the bisection solver of math.hpp, with the invariant data
`min_f = f min_x` and `max_f = f max_x` threaded explicitly.  Each round
first checks that the bracket still changes sign, then performs the
false-position update. -/
def bisectionLoop (f : ℚ → ℚ) (eps : ℚ) :
    ℕ → ℚ → ℚ → ℚ → ℚ → BisectStatus × ℚ × ℚ
  | 0, min_x, max_x, _, _ => (.fail_max_iter, min_x, max_x)
  | iter + 1, min_x, max_x, min_f, max_f =>
    if sign max_f = sign min_f then (.failure_sign, min_x, max_x)
    else
      let x := min_x - min_f * (max_x - min_x) / (max_f - min_f)
      let y := f x
      if |y| ≤ eps then (.success, x, x)
      else if sign y ≠ sign min_f then bisectionLoop f eps iter min_x x min_f y
      else if sign y ≠ sign max_f then bisectionLoop f eps iter x max_x y max_f
      else bisectionLoop f eps iter min_x max_x min_f max_f

/-- Bisection solver from math.hpp: checks the region bounds first, then
runs the false-position loop.  Returns the status and the final bracket. -/
def bisection (f : ℚ → ℚ) (min_x max_x eps : ℚ) (max_iter : ℕ) :
    BisectStatus × ℚ × ℚ :=
  let min_f := f min_x
  if |min_f| ≤ eps then (.success, min_x, min_x)
  else
    let max_f := f max_x
    if |max_f| ≤ eps then (.success, max_x, max_x)
    else bisectionLoop f eps max_iter min_x max_x min_f max_f

/-! ## Parallel partitioner (src/source/tit/core/par/partitioner.hpp) -/

/-- Modelled from the spec: `tit::divide_up` (declared in uint_utils.hpp,
which is not among the sources at hand) divides rounding up; the spec
describes the static partitioner as "dividing the range size by the current
worker-thread count, rounding up". -/
def divide_up (n k : ℕ) : ℕ := (n + k - 1) / k

/-- Blocked range produced by a partitioner: the bounds of the underlying
random-access range plus the grain-size hint handed to `tbb::blocked_range`. -/
structure BlockedRange where
  first : ℕ
  last : ℕ
  grain : ℕ
deriving DecidableEq, Repr

/-- The `StaticPartitioner::blockify` of partitioner.hpp, for a
random-access sized range `[first, last)`.  `num_threads` is the runtime
worker-thread count (`tit::par::num_threads()`), an external runtime value
kept as a parameter. -/
def staticBlockify (num_threads first last : ℕ) : BlockedRange :=
  { first := first, last := last,
    grain := divide_up (last - first) num_threads }

/-- The `AutoPartitioner::blockify` of partitioner.hpp: no grain-size hint
(`tbb::blocked_range`'s default grain size is 1). -/
def autoBlockify (first last : ℕ) : BlockedRange :=
  { first := first, last := last, grain := 1 }

/-! ## Smoothing kernels (smooth_kernel.hpp)

The dimensionless unit profiles are piecewise polynomials with rational
coefficients, so they are stated over an arbitrary linear ordered field and
used both at `ℚ` (executable evaluation) and at `ℝ` (kernel calculus). -/

/-- Unit value of the cubic B-spline (M4) kernel,
`CubicSmoothingKernel::unit_value`. -/
def cubicUnitValue {K : Type} [LinearOrderedField K] (q : K) : K :=
  if 0 ≤ q ∧ q < 1 then (1 / 4) * (2 - q) ^ 3 - (1 - q) ^ 3
  else if 1 ≤ q ∧ q < 2 then (1 / 4) * (2 - q) ^ 3
  else 0

/-- Unit derivative of the cubic B-spline (M4) kernel,
`CubicSmoothingKernel::unit_deriv`. -/
def cubicUnitDeriv {K : Type} [LinearOrderedField K] (q : K) : K :=
  if 0 ≤ q ∧ q < 1 then -(3 / 4) * (2 - q) ^ 2 + 3 * (1 - q) ^ 2
  else if 1 ≤ q ∧ q < 2 then -(3 / 4) * (2 - q) ^ 2
  else 0

/-- Innermost piece (on `[0, 2/3)`) of the Thomas-Couchman modified
derivative. -/
def tcDerivInner {K : Type} [LinearOrderedField K] (_ : K) : K := -1

/-- Middle piece (on `[2/3, 1)`) of the Thomas-Couchman modified
derivative: `(2.25 * q - 3) * q`. -/
def tcDerivMid {K : Type} [LinearOrderedField K] (q : K) : K :=
  ((9 / 4) * q - 3) * q

/-- Outer piece (on `[1, 2)`) of the Thomas-Couchman modified derivative:
`0.75 * pow2(2 - q)`. -/
def tcDerivOuter {K : Type} [LinearOrderedField K] (q : K) : K :=
  (3 / 4) * (2 - q) ^ 2

/-- Unit derivative of the cubic kernel with the Thomas-Couchman (1992)
modification, `ThomasCouchmanSmoothingKernel::unit_deriv`. -/
def tcUnitDeriv {K : Type} [LinearOrderedField K] (q : K) : K :=
  if 0 ≤ q ∧ q < 2 / 3 then tcDerivInner q
  else if 2 / 3 ≤ q ∧ q < 1 then tcDerivMid q
  else if 1 ≤ q ∧ q < 2 then tcDerivOuter q
  else 0

/-- Unit value of the quartic B-spline (M5) kernel,
`QuarticSmoothingKernel::unit_value`. -/
def quarticUnitValue {K : Type} [LinearOrderedField K] (q : K) : K :=
  if 0 ≤ q ∧ q < 1 / 2 then
    (5 / 2 - q) ^ 4 - 5 * (3 / 2 - q) ^ 4 + 10 * (1 / 2 - q) ^ 4
  else if 1 / 2 ≤ q ∧ q < 3 / 2 then (5 / 2 - q) ^ 4 - 5 * (3 / 2 - q) ^ 4
  else if 3 / 2 ≤ q ∧ q < 5 / 2 then (5 / 2 - q) ^ 4
  else 0

/-- Unit derivative of the quartic B-spline (M5) kernel,
`QuarticSmoothingKernel::unit_deriv`. -/
def quarticUnitDeriv {K : Type} [LinearOrderedField K] (q : K) : K :=
  if 0 ≤ q ∧ q < 1 / 2 then
    -4 * (5 / 2 - q) ^ 3 + 20 * (3 / 2 - q) ^ 3 - 40 * (1 / 2 - q) ^ 3
  else if 1 / 2 ≤ q ∧ q < 3 / 2 then -4 * (5 / 2 - q) ^ 3 + 20 * (3 / 2 - q) ^ 3
  else if 3 / 2 ≤ q ∧ q < 5 / 2 then -4 * (5 / 2 - q) ^ 3
  else 0

/-- Unit value of the quintic B-spline (M6) kernel,
`QuinticSmoothingKernel::unit_value`. -/
def quinticUnitValue {K : Type} [LinearOrderedField K] (q : K) : K :=
  if 0 ≤ q ∧ q < 1 then (3 - q) ^ 5 - 6 * (2 - q) ^ 5 + 15 * (1 - q) ^ 5
  else if 1 ≤ q ∧ q < 2 then (3 - q) ^ 5 - 6 * (2 - q) ^ 5
  else if 2 ≤ q ∧ q < 3 then (3 - q) ^ 5
  else 0

/-- Unit derivative of the quintic B-spline (M6) kernel,
`QuinticSmoothingKernel::unit_deriv`. -/
def quinticUnitDeriv {K : Type} [LinearOrderedField K] (q : K) : K :=
  if 0 ≤ q ∧ q < 1 then
    -5 * (3 - q) ^ 4 + 30 * (2 - q) ^ 4 - 75 * (1 - q) ^ 4
  else if 1 ≤ q ∧ q < 2 then -5 * (3 - q) ^ 4 + 30 * (2 - q) ^ 4
  else if 2 ≤ q ∧ q < 3 then -5 * (3 - q) ^ 4
  else 0

/-- Safe division: `a / b` with the convention that the result is `0` when
the denominator is `0` (`tit::safe_divide`; the utility header carrying it
is not among the sources at hand, so this is modelled from the spec's words
"the safe-division convention `unit_deriv(q)/q → 0` as `q → 0`"). -/
def safe_divide {K : Type} [DivisionRing K] [DecidableEq K] (a b : K) : K :=
  if b = 0 then 0 else a / b

/-- Data a concrete kernel supplies to the `SmoothingKernel` base: the unit
support radius, the dimension-dependent normalisation weight, and the
dimensionless profile and its derivative. -/
structure KernelProfile where
  unitRadius : ℝ
  weight : ℕ → ℝ
  unitValue : ℝ → ℝ
  unitDeriv : ℝ → ℝ

/-- Modelled from the spec: Euclidean norm of a displacement vector
(`tit::norm` of vec.hpp, which is not among the sources at hand; the spec
defines `q = |r|/h` with `|r|` the length of the displacement). -/
noncomputable def vnorm {d : ℕ} (r : Fin d → ℝ) : ℝ :=
  Real.sqrt (∑ i, r i ^ 2)

/-- Kernel weight at a displacement, `SmoothingKernel::operator()`:
`h^-D * weight(D) * unit_value(|r|/h)`. -/
noncomputable def kernelValue (P : KernelProfile) {d : ℕ} (r : Fin d → ℝ)
    (h : ℝ) : ℝ :=
  h⁻¹ ^ d * P.weight d * P.unitValue (h⁻¹ * vnorm r)

/-- Spatial gradient of the kernel, `SmoothingKernel::grad`:
`h^-(D+2) * weight(D) * safe_divide(unit_deriv(q), q) * r`. -/
noncomputable def kernelGrad (P : KernelProfile) {d : ℕ} (r : Fin d → ℝ)
    (h : ℝ) : Fin d → ℝ := fun i =>
  h⁻¹ ^ (d + 2) * P.weight d *
    safe_divide (P.unitDeriv (h⁻¹ * vnorm r)) (h⁻¹ * vnorm r) * r i

/-- Width derivative of the kernel, `SmoothingKernel::radius_deriv`:
`h^-(D+1) * weight(D) * (-D * unit_value(q) - q * unit_deriv(q))`. -/
noncomputable def kernelRadiusDeriv (P : KernelProfile) {d : ℕ}
    (r : Fin d → ℝ) (h : ℝ) : ℝ :=
  h⁻¹ ^ (d + 1) * P.weight d *
    (-(d : ℝ) * P.unitValue (h⁻¹ * vnorm r) -
      (h⁻¹ * vnorm r) * P.unitDeriv (h⁻¹ * vnorm r))

/-- The Gaussian kernel (`GaussianSmoothingKernel`); its practical unit
radius is where the weight underflows the smallest positive normal double. -/
noncomputable def gaussianKernel : KernelProfile where
  unitRadius := Real.sqrt (-Real.log ((2 : ℝ) ^ (-1022 : ℤ)))
  weight := fun d => ((Real.sqrt Real.pi)⁻¹) ^ d
  unitValue := fun q => Real.exp (-q ^ 2)
  unitDeriv := fun q => -2 * q * Real.exp (-q ^ 2)

/-- Normalisation weights of the cubic B-spline kernel (dimensions 1-3). -/
noncomputable def cubicWeight : ℕ → ℝ
  | 1 => 2 / 3
  | 2 => 10 / 7 * Real.pi⁻¹
  | 3 => Real.pi⁻¹
  | _ => 0

/-- The cubic B-spline kernel (`CubicSmoothingKernel`). -/
noncomputable def cubicKernel : KernelProfile where
  unitRadius := 2
  weight := cubicWeight
  unitValue := cubicUnitValue
  unitDeriv := cubicUnitDeriv

/-- The cubic kernel with the Thomas-Couchman modified derivative
(`ThomasCouchmanSmoothingKernel`); weight, radius and value delegate to the
cubic kernel. -/
noncomputable def thomasCouchmanKernel : KernelProfile where
  unitRadius := 2
  weight := cubicWeight
  unitValue := cubicUnitValue
  unitDeriv := tcUnitDeriv

/-- Normalisation weights of the quartic B-spline kernel (dimensions 1-3). -/
noncomputable def quarticWeight : ℕ → ℝ
  | 1 => 1 / 24
  | 2 => 96 / 1199 * Real.pi⁻¹
  | 3 => 1 / 2 * Real.pi⁻¹
  | _ => 0

/-- The quartic B-spline kernel (`QuarticSmoothingKernel`). -/
noncomputable def quarticKernel : KernelProfile where
  unitRadius := 5 / 2
  weight := quarticWeight
  unitValue := quarticUnitValue
  unitDeriv := quarticUnitDeriv

/-- Normalisation weights of the quintic B-spline kernel (dimensions 1-3). -/
noncomputable def quinticWeight : ℕ → ℝ
  | 1 => 1 / 120
  | 2 => 7 / 478 * Real.pi⁻¹
  | 3 => 1 / 120 * Real.pi⁻¹
  | _ => 0

/-- The quintic B-spline kernel (`QuinticSmoothingKernel`). -/
noncomputable def quinticKernel : KernelProfile where
  unitRadius := 3
  weight := quinticWeight
  unitValue := quinticUnitValue
  unitDeriv := quinticUnitDeriv

/-- All concrete kernels of smooth_kernel.hpp. -/
noncomputable def supportedKernels : List KernelProfile :=
  [gaussianKernel, cubicKernel, thomasCouchmanKernel, quarticKernel,
    quinticKernel]

/-! ## Particle estimators (TitEstimator.hpp)

The estimators are embedded over exact rationals in a generic spatial
dimension.  A particle cloud is the field-per-particle data model of the
spec; the neighbour query `nearby` is the opaque spatial-index collaborator
(a function of the particle and the search radius), the kernel is the
template parameter `KernelOps`, and the equation-of-state / viscosity
strategies are parameters reading the current cloud, exactly as the C++
templates.  The subscript `r[a, b]` of TitParticle.hpp is the displacement
`r[a] - r[b]` (spec: "sum `m_b * kernel.value(r_a - r_b, h)`").  Optional
capabilities `curl_v`, `eps`/`deps_dt` and `alpha`/`dalpha_dt` are compile
time toggles in the source; this embedding instantiates the clouds with
`div_v` tracked and those toggles off.  The parallel `for_each` is embedded
as a sequential fold: within a pass each particle writes only its own slots
and reads only fields the pass never writes, so chunk order is immaterial
(spec section 5). -/

/-- Displacement / velocity vectors over exact rationals. -/
abbrev Vec (dim : ℕ) := Fin dim → ℚ

/-- Dot product of two vectors. -/
def vdot {dim : ℕ} (u v : Vec dim) : ℚ := ∑ i, u i * v i

/-- Kernel operations as consumed by the estimators (the four members of
`SmoothingKernel` that the estimator templates call). -/
structure KernelOps (dim : ℕ) where
  value : Vec dim → ℚ → ℚ
  grad : Vec dim → ℚ → Vec dim
  radius : ℚ → ℚ
  radiusDeriv : Vec dim → ℚ → ℚ

/-- The cubic B-spline kernel operations in one spatial dimension, where
the Euclidean norm of a displacement is `|r 0|` and all data is rational
(`CubicSmoothingKernel` through its `SmoothingKernel` base, at `Dim = 1`
where `weight() = 2/3`). -/
def cubic1Ops : KernelOps 1 where
  value r h := h⁻¹ ^ 1 * (2 / 3) * cubicUnitValue (h⁻¹ * |r 0|)
  grad r h := fun i =>
    h⁻¹ ^ 3 * (2 / 3) *
      safe_divide (cubicUnitDeriv (h⁻¹ * |r 0|)) (h⁻¹ * |r 0|) * r i
  radius h := 2 * h
  radiusDeriv r h :=
    h⁻¹ ^ 2 * (2 / 3) *
      (-(1 : ℚ) * cubicUnitValue (h⁻¹ * |r 0|) -
        (h⁻¹ * |r 0|) * cubicUnitDeriv (h⁻¹ * |r 0|))

/-- A particle cloud: parallel per-particle field arrays plus the opaque
neighbour query.  `fixed` marks boundary/ghost particles holding prescribed
values. -/
structure Cloud (dim n : ℕ) where
  fixed : Fin n → Bool
  h : Fin n → ℚ
  m : Fin n → ℚ
  rho : Fin n → ℚ
  p : Fin n → ℚ
  cs : Fin n → ℚ
  Omega : Fin n → ℚ
  div_v : Fin n → ℚ
  r : Fin n → Vec dim
  v : Fin n → Vec dim
  dv_dt : Fin n → Vec dim
  nearby : Fin n → ℚ → List (Fin n)

/-- The per-particle loop primitive `particles.for_each`, embedded as a
fold in index order. -/
def forEach {dim n : ℕ} (step : Cloud dim n → Fin n → Cloud dim n)
    (c : Cloud dim n) : Cloud dim n :=
  (List.finRange n).foldl step c

/-- Body of the first pass of `ClassicSmoothEstimator::estimate_density`
for one particle: skip fixed particles, set the constant width, accumulate
`rho` over the neighbours, then derive `p` and `cs` from the
equation-of-state strategy. -/
def classicDensityStep {dim n : ℕ} (K : KernelOps dim)
    (eosP eosCs : Cloud dim n → Fin n → ℚ) (h_ab : ℚ)
    (c : Cloud dim n) (a : Fin n) : Cloud dim n :=
  if c.fixed a then c
  else
    let c1 := { c with
      h := Function.update c.h a h_ab
      rho := Function.update c.rho a
        (((c.nearby a (K.radius h_ab)).map
          (fun b => c.m b * K.value (c.r a - c.r b) h_ab)).sum) }
    let c2 := { c1 with p := Function.update c1.p a (eosP c1 a) }
    { c2 with cs := Function.update c2.cs a (eosCs c2 a) }

/-- Body of the second pass of `ClassicSmoothEstimator::estimate_density`
for one particle: the velocity-divergence accumulation (note: the source
has no `fixed` check in this pass), finally scaled by `rho[a]`. -/
def classicDivStep {dim n : ℕ} (K : KernelOps dim) (h_ab : ℚ)
    (c : Cloud dim n) (a : Fin n) : Cloud dim n :=
  let s := ((c.nearby a (K.radius h_ab)).map (fun b =>
    c.m b * vdot (fun i => c.v a i / c.rho a ^ 2 + c.v b i / c.rho b ^ 2)
      (K.grad (c.r a - c.r b) h_ab))).sum
  { c with div_v := Function.update c.div_v a (s * c.rho a) }

/-- `ClassicSmoothEstimator::estimate_density`: the density/pressure pass
followed by the velocity-divergence pass. -/
def classicEstimateDensity {dim n : ℕ} (K : KernelOps dim)
    (eosP eosCs : Cloud dim n → Fin n → ℚ) (h_ab : ℚ)
    (c : Cloud dim n) : Cloud dim n :=
  forEach (classicDivStep K h_ab)
    (forEach (classicDensityStep K eosP eosCs h_ab) c)

/-- One neighbour's contribution inside
`ClassicSmoothEstimator::estimate_forces`:
`m_b * (p_a/rho_a^2 + p_b/rho_b^2 + Pi_ab) * grad_ab`. -/
def classicPairAccel {dim n : ℕ} (K : KernelOps dim)
    (visc : Cloud dim n → Fin n → Fin n → ℚ) (h_ab : ℚ)
    (c : Cloud dim n) (a b : Fin n) : Vec dim := fun i =>
  c.m b * (c.p a / c.rho a ^ 2 + c.p b / c.rho b ^ 2 + visc c a b) *
    K.grad (c.r a - c.r b) h_ab i

/-- Acceleration written for one particle by
`ClassicSmoothEstimator::estimate_forces`: the negated neighbour sum, with
no further term. -/
def classicForcesValue {dim n : ℕ} (K : KernelOps dim)
    (visc : Cloud dim n → Fin n → Fin n → ℚ) (h_ab : ℚ)
    (c : Cloud dim n) (a : Fin n) : Vec dim := fun i =>
  -(((c.nearby a (K.radius h_ab)).map
    (fun b => classicPairAccel K visc h_ab c a b i)).sum)

/-- Body of `ClassicSmoothEstimator::estimate_forces` for one particle:
fixed particles are skipped. -/
def classicForcesStep {dim n : ℕ} (K : KernelOps dim)
    (visc : Cloud dim n → Fin n → Fin n → ℚ) (h_ab : ℚ)
    (c : Cloud dim n) (a : Fin n) : Cloud dim n :=
  if c.fixed a then c
  else { c with
    dv_dt := Function.update c.dv_dt a (classicForcesValue K visc h_ab c a) }

/-- `ClassicSmoothEstimator::estimate_forces`. -/
def classicEstimateForces {dim n : ℕ} (K : KernelOps dim)
    (visc : Cloud dim n → Fin n → Fin n → ℚ) (h_ab : ℚ)
    (c : Cloud dim n) : Cloud dim n :=
  forEach (classicForcesStep K visc h_ab) c

/-- The width-solve closure of `GradHSmoothEstimator::estimate_density`:
given the current estimate of `h[a]` it recomputes `rho[a]` and `Omega[a]`
(the threaded state) and returns the residual `zeta = Rho(h) - rho(h)` and
its derivative, where `Rho(h) = m_a * (eta/h)^d` is the target density.
`Omega[a]` first accumulates `sum m_b * dW_ab/dh` and is then replaced by
the grad-h correction `1 - Omega[a] / dRho_dh`. -/
def gradHSolveF {dim n : ℕ} (K : KernelOps dim) (eta : ℚ)
    (c : Cloud dim n) (a : Fin n) : ℚ × ℚ → ℚ → (ℚ × ℚ) × ℚ × ℚ :=
  fun _s hx =>
    let R := K.radius hx
    let rhoNew := ((c.nearby a R).map
      (fun b => c.m b * K.value (c.r a - c.r b) hx)).sum
    let omRaw := ((c.nearby a R).map
      (fun b => c.m b * K.radiusDeriv (c.r a - c.r b) hx)).sum
    let Rho := c.m a * (eta / hx) ^ dim
    let dRho := -(dim : ℚ) * Rho / hx
    ((rhoNew, 1 - omRaw / dRho), Rho - rhoNew, dRho - omRaw)

/-- Body of the first pass of `GradHSmoothEstimator::estimate_density` for
one particle: run the damped Newton width solve (default tolerance
`small_number_v` and 10 iterations, as in math.hpp), keep whatever
`h`/`rho`/`Omega` the solve left behind, then derive `p` and `cs`.  The
status returned by `newton_raphson` is discarded, as at the call site in
the source. -/
def gradHDensityStep {dim n : ℕ} (K : KernelOps dim) (eta : ℚ)
    (eosP eosCs : Cloud dim n → Fin n → ℚ) (small : ℚ)
    (c : Cloud dim n) (a : Fin n) : Cloud dim n :=
  if c.fixed a then c
  else
    let res := newton_raphson (gradHSolveF K eta c a) small small 10
      (c.rho a, c.Omega a) (c.h a)
    let c1 := { c with
      h := Function.update c.h a res.2.2
      rho := Function.update c.rho a res.2.1.1
      Omega := Function.update c.Omega a res.2.1.2 }
    let c2 := { c1 with p := Function.update c1.p a (eosP c1 a) }
    { c2 with cs := Function.update c2.cs a (eosCs c2 a) }

/-- Status of the width solve that `GradHSmoothEstimator::estimate_density`
performs for particle `a` of cloud `c`: the very value the call site
discards. -/
def gradHSolveStatus {dim n : ℕ} (K : KernelOps dim) (eta small : ℚ)
    (c : Cloud dim n) (a : Fin n) : NRStatus :=
  (newton_raphson (gradHSolveF K eta c a) small small 10
    (c.rho a, c.Omega a) (c.h a)).1

/-- Body of the second pass of `GradHSmoothEstimator::estimate_density` for
one particle: velocity divergence with per-particle widths (the source has
no `fixed` check in this pass), scaled by `rho[a]`. -/
def gradHDivStep {dim n : ℕ} (K : KernelOps dim)
    (c : Cloud dim n) (a : Fin n) : Cloud dim n :=
  let s := ((c.nearby a (K.radius (c.h a))).map (fun b =>
    c.m b * (vdot (fun i => c.v a i / c.rho a ^ 2)
        (K.grad (c.r a - c.r b) (c.h a)) +
      vdot (fun i => c.v b i / c.rho b ^ 2)
        (K.grad (c.r a - c.r b) (c.h b))))).sum
  { c with div_v := Function.update c.div_v a (s * c.rho a) }

/-- `GradHSmoothEstimator::estimate_density`: the width-solve pass followed
by the velocity-divergence pass. -/
def gradHEstimateDensity {dim n : ℕ} (K : KernelOps dim) (eta : ℚ)
    (eosP eosCs : Cloud dim n → Fin n → ℚ) (small : ℚ)
    (c : Cloud dim n) : Cloud dim n :=
  forEach (gradHDivStep K)
    (forEach (gradHDensityStep K eta eosP eosCs small) c)

/-- One neighbour's contribution inside
`GradHSmoothEstimator::estimate_forces`: the `p_a` term uses the gradient
at width `h_a`, the `p_b` term the gradient at width `h_b`, and the
artificial-viscosity term the average of the two. -/
def gradHPairAccel {dim n : ℕ} (K : KernelOps dim)
    (visc : Cloud dim n → Fin n → Fin n → ℚ)
    (c : Cloud dim n) (a b : Fin n) : Vec dim := fun i =>
  let gaba := K.grad (c.r a - c.r b) (c.h a)
  let gabb := K.grad (c.r a - c.r b) (c.h b)
  c.m b * (c.p a / (c.Omega a * c.rho a ^ 2) * gaba i +
    c.p b / (c.Omega b * c.rho b ^ 2) * gabb i +
    visc c a b * ((gaba i + gabb i) / 2))

/-- Modelled from the spec's words, for comparison with `gradHPairAccel`:
a pairwise contribution in which the whole force term uses the symmetrised
averaged kernel gradient `grad_ab = avg(grad W(r, h_a), grad W(r, h_b))`. -/
def specAvgPairAccel {dim n : ℕ} (K : KernelOps dim)
    (visc : Cloud dim n → Fin n → Fin n → ℚ)
    (c : Cloud dim n) (a b : Fin n) : Vec dim := fun i =>
  c.m b * (c.p a / (c.Omega a * c.rho a ^ 2) +
    c.p b / (c.Omega b * c.rho b ^ 2) + visc c a b) *
    ((K.grad (c.r a - c.r b) (c.h a) i +
      K.grad (c.r a - c.r b) (c.h b) i) / 2)

/-- The hard-coded downward body acceleration of
`GradHSmoothEstimator::estimate_forces` (`dv_dt[a][1] -= 9.81`). -/
def gravity : ℚ := 981 / 100

/-- Acceleration written for one particle by
`GradHSmoothEstimator::estimate_forces`: the negated neighbour sum, then
`9.81` subtracted from component 1. -/
def gradHForcesValue {dim n : ℕ} (K : KernelOps dim)
    (visc : Cloud dim n → Fin n → Fin n → ℚ)
    (c : Cloud dim n) (a : Fin n) : Vec dim := fun i =>
  -(((c.nearby a (K.radius (c.h a))).map
    (fun b => gradHPairAccel K visc c a b i)).sum) -
    (if (i : ℕ) = 1 then gravity else 0)

/-- Body of `GradHSmoothEstimator::estimate_forces` for one particle:
fixed particles are skipped. -/
def gradHForcesStep {dim n : ℕ} (K : KernelOps dim)
    (visc : Cloud dim n → Fin n → Fin n → ℚ)
    (c : Cloud dim n) (a : Fin n) : Cloud dim n :=
  if c.fixed a then c
  else { c with
    dv_dt := Function.update c.dv_dt a (gradHForcesValue K visc c a) }

/-- `GradHSmoothEstimator::estimate_forces`. -/
def gradHEstimateForces {dim n : ℕ} (K : KernelOps dim)
    (visc : Cloud dim n → Fin n → Fin n → ℚ)
    (c : Cloud dim n) : Cloud dim n :=
  forEach (gradHForcesStep K visc) c

/-! ## Concrete test data -/

/-- Linear test equation of state: `pressure = 10 * rho`. -/
def linEosP {dim n : ℕ} : Cloud dim n → Fin n → ℚ := fun c a => 10 * c.rho a

/-- Linear test equation of state: `sound_speed = rho`. -/
def linEosCs {dim n : ℕ} : Cloud dim n → Fin n → ℚ := fun c a => c.rho a

/-- Artificial viscosity with no dissipation (`Pi_ab = 0`). -/
def zeroVisc {dim n : ℕ} : Cloud dim n → Fin n → Fin n → ℚ := fun _ _ _ => 0

/-- A one-particle one-dimensional cloud on which the Grad-H width solve
cannot converge: with coupling `eta = 1` and the cubic kernel, the residual
`zeta(h) = m/h - 2m/(3h) = m/(3h)` never vanishes, and every damped Newton
step doubles `h`. -/
def c1FailCloud : Cloud 1 1 where
  fixed := fun _ => false
  h := fun _ => 1
  m := fun _ => 1
  rho := fun _ => 0
  p := fun _ => 0
  cs := fun _ => 0
  Omega := fun _ => 0
  div_v := fun _ => 0
  r := fun _ => fun _ => 0
  v := fun _ => fun _ => 0
  dv_dt := fun _ => fun _ => 0
  nearby := fun _ _ => [0]

/-- A cloud whose only particle is fixed, with a prescribed nonzero
velocity divergence and no neighbours. -/
def c2FixedCloud : Cloud 1 1 where
  fixed := fun _ => true
  h := fun _ => 1
  m := fun _ => 1
  rho := fun _ => 1
  p := fun _ => 1
  cs := fun _ => 1
  Omega := fun _ => 1
  div_v := fun _ => 1
  r := fun _ => fun _ => 0
  v := fun _ => fun _ => 0
  dv_dt := fun _ => fun _ => 0
  nearby := fun _ _ => []

/-- Two neighbouring particles with distinct widths (`h_0 = 1`, `h_1 = 2`)
and distinct pressures (`p_0 = 1`, `p_1 = 0`), separated by unit distance. -/
def c4Cloud : Cloud 1 2 where
  fixed := fun _ => false
  h := fun a => if a = 0 then 1 else 2
  m := fun _ => 1
  rho := fun _ => 1
  p := fun a => if a = 0 then 1 else 0
  cs := fun _ => 0
  Omega := fun _ => 1
  div_v := fun _ => 0
  r := fun a => fun _ => if a = 0 then 0 else -1
  v := fun _ => fun _ => 0
  dv_dt := fun _ => fun _ => 0
  nearby := fun a _ => if a = 0 then [1] else [0]

/-! ## Helper lemmas on the Newton-Raphson solver -/

theorem newton_raphson_zero {σ : Type} (f : σ → ℚ → σ × ℚ × ℚ)
    (small eps : ℚ) (s : σ) (x : ℚ) :
    newton_raphson f small eps 0 s x = (.fail_max_iter, s, x) := rfl

theorem newton_raphson_succ {σ : Type} (f : σ → ℚ → σ × ℚ × ℚ)
    (small eps : ℚ) (n : ℕ) (s : σ) (x : ℚ) :
    newton_raphson f small eps (n + 1) s x =
      if |(f s x).2.1| ≤ eps then (.success, (f s x).1, x)
      else if |(f s x).2.2| ≤ small then (.fail_zero_deriv, (f s x).1, x)
      else newton_raphson f small eps n (f s x).1
        (x - (f s x).2.1 / (f s x).2.2) := rfl

theorem nrOrbit_zero {σ : Type} (f : σ → ℚ → σ × ℚ × ℚ) (s : σ) (x : ℚ) :
    nrOrbit f s x 0 = (s, x) := rfl

theorem nrOrbit_succ {σ : Type} (f : σ → ℚ → σ × ℚ × ℚ) (s : σ) (x : ℚ)
    (k : ℕ) :
    nrOrbit f s x (k + 1) =
      ((f (nrOrbit f s x k).1 (nrOrbit f s x k).2).1,
        (nrOrbit f s x k).2 -
          (f (nrOrbit f s x k).1 (nrOrbit f s x k).2).2.1 /
            (f (nrOrbit f s x k).1 (nrOrbit f s x k).2).2.2) := rfl

theorem nrRes_zero {σ : Type} (f : σ → ℚ → σ × ℚ × ℚ) (s : σ) (x : ℚ) :
    nrRes f s x 0 = (f s x).2.1 := rfl

theorem nrDer_zero {σ : Type} (f : σ → ℚ → σ × ℚ × ℚ) (s : σ) (x : ℚ) :
    nrDer f s x 0 = (f s x).2.2 := rfl

theorem nrOrbit_shift {σ : Type} (f : σ → ℚ → σ × ℚ × ℚ) (s : σ) (x : ℚ)
    (k : ℕ) :
    nrOrbit f s x (k + 1) =
      nrOrbit f (f s x).1 (x - (f s x).2.1 / (f s x).2.2) k := by
  induction k with
  | zero => rfl
  | succ k ih => rw [nrOrbit_succ, ih, nrOrbit_succ]

theorem nrRes_shift {σ : Type} (f : σ → ℚ → σ × ℚ × ℚ) (s : σ) (x : ℚ)
    (k : ℕ) :
    nrRes f s x (k + 1) =
      nrRes f (f s x).1 (x - (f s x).2.1 / (f s x).2.2) k := by
  unfold nrRes; rw [nrOrbit_shift]

theorem nrDer_shift {σ : Type} (f : σ → ℚ → σ × ℚ × ℚ) (s : σ) (x : ℚ)
    (k : ℕ) :
    nrDer f s x (k + 1) =
      nrDer f (f s x).1 (x - (f s x).2.1 / (f s x).2.2) k := by
  unfold nrDer; rw [nrOrbit_shift]

/-- When neither exit condition ever fires within `n` rounds, the solver
spends all its iterations and reports `fail_max_iter`, leaving behind the
`n`-th point of the Newton orbit. -/
theorem nr_run_fail_max {σ : Type} (f : σ → ℚ → σ × ℚ × ℚ)
    (small eps : ℚ) (n : ℕ) (s : σ) (x : ℚ)
    (hcond : ∀ k < n, eps < |nrRes f s x k| ∧ small < |nrDer f s x k|) :
    newton_raphson f small eps n s x = (.fail_max_iter, nrOrbit f s x n) := by
  induction n generalizing s x with
  | zero => rfl
  | succ n ih =>
    have h0 := hcond 0 (Nat.succ_pos n)
    rw [nrRes_zero, nrDer_zero] at h0
    rw [newton_raphson_succ, if_neg (not_le.2 h0.1), if_neg (not_le.2 h0.2),
      nrOrbit_shift]
    exact ih _ _ fun k hk => by
      rw [← nrRes_shift, ← nrDer_shift]
      exact hcond (k + 1) (Nat.succ_lt_succ hk)

/-- When the residual first comes within tolerance at round `j < n` (and no
earlier round hit a small derivative), the solver returns `success` with
the `j`-th orbit point as the estimate and the state written by the last
invocation of `f`. -/
theorem nr_run_success {σ : Type} (f : σ → ℚ → σ × ℚ × ℚ)
    (small eps : ℚ) (n j : ℕ) (s : σ) (x : ℚ) (hj : j < n)
    (hbefore : ∀ k < j, eps < |nrRes f s x k| ∧ small < |nrDer f s x k|)
    (hhit : |nrRes f s x j| ≤ eps) :
    newton_raphson f small eps n s x =
      (.success, (f (nrOrbit f s x j).1 (nrOrbit f s x j).2).1,
        (nrOrbit f s x j).2) := by
  induction n generalizing j s x with
  | zero => exact absurd hj (Nat.not_lt_zero j)
  | succ n ih =>
    match j with
    | 0 =>
      rw [nrRes_zero] at hhit
      rw [newton_raphson_succ, if_pos hhit]
      rfl
    | j + 1 =>
      have h0 := hbefore 0 (Nat.succ_pos j)
      rw [nrRes_zero, nrDer_zero] at h0
      rw [newton_raphson_succ, if_neg (not_le.2 h0.1), if_neg (not_le.2 h0.2),
        nrOrbit_shift]
      refine ih j _ _ (Nat.lt_of_succ_lt_succ hj) (fun k hk => ?_) ?_
      · rw [← nrRes_shift, ← nrDer_shift]
        exact hbefore (k + 1) (Nat.succ_lt_succ hk)
      · rw [← nrRes_shift]; exact hhit

/-- When the derivative first becomes small at round `j < n` while the
residual is still out of tolerance, the solver returns `fail_zero_deriv`
without updating the estimate at that round. -/
theorem nr_run_zero_deriv {σ : Type} (f : σ → ℚ → σ × ℚ × ℚ)
    (small eps : ℚ) (n j : ℕ) (s : σ) (x : ℚ) (hj : j < n)
    (hbefore : ∀ k < j, eps < |nrRes f s x k| ∧ small < |nrDer f s x k|)
    (hres : eps < |nrRes f s x j|) (hder : |nrDer f s x j| ≤ small) :
    newton_raphson f small eps n s x =
      (.fail_zero_deriv, (f (nrOrbit f s x j).1 (nrOrbit f s x j).2).1,
        (nrOrbit f s x j).2) := by
  induction n generalizing j s x with
  | zero => exact absurd hj (Nat.not_lt_zero j)
  | succ n ih =>
    match j with
    | 0 =>
      rw [nrRes_zero] at hres
      rw [nrDer_zero] at hder
      rw [newton_raphson_succ, if_neg (not_le.2 hres), if_pos hder]
      rfl
    | j + 1 =>
      have h0 := hbefore 0 (Nat.succ_pos j)
      rw [nrRes_zero, nrDer_zero] at h0
      rw [newton_raphson_succ, if_neg (not_le.2 h0.1), if_neg (not_le.2 h0.2),
        nrOrbit_shift]
      refine ih j _ _ (Nat.lt_of_succ_lt_succ hj) (fun k hk => ?_) ?_ ?_
      · rw [← nrRes_shift, ← nrDer_shift]
        exact hbefore (k + 1) (Nat.succ_lt_succ hk)
      · rw [← nrRes_shift]; exact hres
      · rw [← nrDer_shift]; exact hder

/-! ## Helper lemmas on the bisection solver -/

theorem bisectionLoop_zero (f : ℚ → ℚ) (eps a b fa fb : ℚ) :
    bisectionLoop f eps 0 a b fa fb = (.fail_max_iter, a, b) := rfl

theorem bisectionLoop_succ (f : ℚ → ℚ) (eps : ℚ) (iter : ℕ)
    (a b fa fb : ℚ) :
    bisectionLoop f eps (iter + 1) a b fa fb =
      if sign fb = sign fa then (.failure_sign, a, b)
      else if |f (a - fa * (b - a) / (fb - fa))| ≤ eps then
        (.success, a - fa * (b - a) / (fb - fa),
          a - fa * (b - a) / (fb - fa))
      else if sign (f (a - fa * (b - a) / (fb - fa))) ≠ sign fa then
        bisectionLoop f eps iter a (a - fa * (b - a) / (fb - fa)) fa
          (f (a - fa * (b - a) / (fb - fa)))
      else if sign (f (a - fa * (b - a) / (fb - fa))) ≠ sign fb then
        bisectionLoop f eps iter (a - fa * (b - a) / (fb - fa)) b
          (f (a - fa * (b - a) / (fb - fa))) fb
      else bisectionLoop f eps iter a b fa fb := rfl

theorem sign_of_pos {a : ℚ} (h : 0 < a) : sign a = 1 := by
  simp [sign, h, asymm h]

theorem sign_of_neg {a : ℚ} (h : a < 0) : sign a = -1 := by
  simp [sign, h, asymm h]

/-- The false-position point lies inside the current bracket whenever the
bracket is ordered and the residuals at its ends do not share a sign. -/
theorem falsePos_bracket (min_x max_x min_f max_f : ℚ)
    (hle : min_x ≤ max_x) (hsign : sign max_f ≠ sign min_f) :
    min_x ≤ min_x - min_f * (max_x - min_x) / (max_f - min_f) ∧
      min_x - min_f * (max_x - min_x) / (max_f - min_f) ≤ max_x := by
  have hu : 0 ≤ max_x - min_x := sub_nonneg.2 hle
  rcases lt_trichotomy min_f 0 with hmf | hmf | hmf
  · have hmax : 0 ≤ max_f := by
      by_contra hc
      push_neg at hc
      exact hsign ((sign_of_neg hc).trans (sign_of_neg hmf).symm)
    have hD : 0 < max_f - min_f := by linarith
    have h1 : min_f * (max_x - min_x) / (max_f - min_f) ≤ 0 :=
      div_nonpos_iff.2 (Or.inr ⟨mul_nonpos_iff.2 (Or.inr ⟨hmf.le, hu⟩), hD.le⟩)
    refine ⟨by linarith, ?_⟩
    have h2 : -min_f * (max_x - min_x) / (max_f - min_f) ≤ max_x - min_x := by
      rw [div_le_iff₀ hD]
      nlinarith
    have h3 : -(min_f * (max_x - min_x) / (max_f - min_f)) =
        -min_f * (max_x - min_x) / (max_f - min_f) := by ring
    linarith
  · subst hmf
    simp only [zero_mul, zero_div, sub_zero]
    exact ⟨le_refl _, hle⟩
  · have hmax : max_f ≤ 0 := by
      by_contra hc
      push_neg at hc
      exact hsign ((sign_of_pos hc).trans (sign_of_pos hmf).symm)
    have hD : max_f - min_f < 0 := by linarith
    have h1 : min_f * (max_x - min_x) / (max_f - min_f) ≤ 0 :=
      div_nonpos_iff.2 (Or.inl ⟨mul_nonneg hmf.le hu, hD.le⟩)
    refine ⟨by linarith, ?_⟩
    have hD' : 0 < min_f - max_f := by linarith
    have h2 : min_f * (max_x - min_x) / (min_f - max_f) ≤ max_x - min_x := by
      rw [div_le_iff₀ hD']
      nlinarith
    have h3 : -(min_f * (max_x - min_x) / (max_f - min_f)) =
        min_f * (max_x - min_x) / (min_f - max_f) := by
      have hneg : min_f - max_f = -(max_f - min_f) := by ring
      rw [hneg, div_neg]
    linarith

/-- The property claim C10 asserts of a bisection result: a `success`
return has a collapsed bracket whose point satisfies the tolerance, and
any other return keeps the bracket ordered. -/
def BisectOk (f : ℚ → ℚ) (eps : ℚ) (res : BisectStatus × ℚ × ℚ) : Prop :=
  (res.1 = .success → res.2.1 = res.2.2 ∧ |f res.2.1| ≤ eps) ∧
  (res.1 ≠ .success → res.2.1 ≤ res.2.2)

theorem bisectionLoop_ok (f : ℚ → ℚ) (eps : ℚ) :
    ∀ (iter : ℕ) (a b : ℚ), a ≤ b →
      BisectOk f eps (bisectionLoop f eps iter a b (f a) (f b)) := by
  intro iter
  induction iter with
  | zero =>
    intro a b hab
    rw [bisectionLoop_zero]
    exact ⟨nofun, fun _ => hab⟩
  | succ n ih =>
    intro a b hab
    rw [bisectionLoop_succ]
    by_cases hs : sign (f b) = sign (f a)
    · rw [if_pos hs]
      exact ⟨nofun, fun _ => hab⟩
    · rw [if_neg hs]
      obtain ⟨hx1, hx2⟩ := falsePos_bracket a b (f a) (f b) hab hs
      by_cases hy : |f (a - f a * (b - a) / (f b - f a))| ≤ eps
      · rw [if_pos hy]
        exact ⟨fun _ => ⟨rfl, hy⟩, fun _ => le_refl _⟩
      · rw [if_neg hy]
        by_cases h1 : sign (f (a - f a * (b - a) / (f b - f a))) ≠ sign (f a)
        · rw [if_pos h1]
          exact ih a _ hx1
        · rw [if_neg h1]
          by_cases h2 : sign (f (a - f a * (b - a) / (f b - f a))) ≠ sign (f b)
          · rw [if_pos h2]
            exact ih _ b hx2
          · rw [if_neg h2]
            exact ih a b hab

/-! ## Claims -/

theorem finRange_one : List.finRange 1 = [0] := by
  simp [List.finRange_succ_eq_map]

theorem finRange_two : List.finRange 2 = [0, 1] := by
  simp [List.finRange_succ_eq_map, List.finRange_succ_eq_map]

/-- On `c1FailCloud` (one particle at the origin, its own single
neighbour), the width-solve closure evaluates in closed form. -/
theorem c1F_eval (s : ℚ × ℚ) (h : ℚ) (hp : 0 < h) :
    gradHSolveF cubic1Ops 1 c1FailCloud 0 s h =
      ((2 / 3 * h⁻¹, 1 / 3), h⁻¹ / 3, -(h⁻¹ ^ 2 / 3)) := by
  have hne : h ≠ 0 := ne_of_gt hp
  simp only [gradHSolveF, cubic1Ops, c1FailCloud, List.map_cons, List.map_nil,
    List.sum_cons, List.sum_nil, sub_self, Pi.sub_apply]
  norm_num [cubicUnitValue, cubicUnitDeriv]
  refine ⟨⟨by ring, by field_simp; ring⟩, by ring, by field_simp; ring⟩

/-- Closed form of the Newton orbit of the width solve on `c1FailCloud`:
every round doubles the estimate. -/
theorem c1_orbit (k : ℕ) :
    nrOrbit (gradHSolveF cubic1Ops 1 c1FailCloud 0) (0, 0) 1 (k + 1) =
      ((2 / 3 * ((2 : ℚ) ^ k)⁻¹, 1 / 3), 2 ^ (k + 1)) := by
  induction k with
  | zero =>
    rw [nrOrbit_succ, nrOrbit_zero]
    rw [c1F_eval _ _ one_pos]
    norm_num
  | succ k ih =>
    rw [nrOrbit_succ, ih]
    rw [c1F_eval _ _ (by positivity)]
    have h2 : ((2 : ℚ) ^ (k + 1)) ≠ 0 := by positivity
    simp only [Prod.mk.injEq]
    refine ⟨trivial, ?_⟩
    field_simp
    ring

/-- Residual and derivative of the width solve on `c1FailCloud` at every
orbit point. -/
theorem c1_res_der (k : ℕ) :
    nrRes (gradHSolveF cubic1Ops 1 c1FailCloud 0) (0, 0) 1 k =
        ((2 : ℚ) ^ k)⁻¹ / 3 ∧
      nrDer (gradHSolveF cubic1Ops 1 c1FailCloud 0) (0, 0) 1 k =
        -((((2 : ℚ) ^ k)⁻¹) ^ 2 / 3) := by
  cases k with
  | zero =>
    unfold nrRes nrDer
    rw [nrOrbit_zero, c1F_eval _ _ one_pos]
    norm_num
  | succ k =>
    unfold nrRes nrDer
    rw [c1_orbit k, c1F_eval _ _ (by positivity)]
    exact ⟨rfl, rfl⟩

/-- The full width solve of `c1FailCloud`'s particle: ten rounds without
convergence. -/
theorem c1_solve :
    newton_raphson (gradHSolveF cubic1Ops 1 c1FailCloud 0)
        (1 / 1000000000) (1 / 1000000000) 10 (0, 0) 1 =
      (.fail_max_iter, (1 / 768, 1 / 3), 1024) := by
  rw [nr_run_fail_max]
  · rw [show (10 : ℕ) = 9 + 1 from rfl, c1_orbit]
    norm_num
  · intro k hk
    obtain ⟨h1, h2⟩ := c1_res_der k
    rw [h1, h2]
    interval_cases k <;> norm_num [abs_neg, abs_of_pos]

/-- C1: the claim says the Grad-H `estimate_density` surfaces a failed
width solve to the caller for the affected particle.  The code discards
the `NewtonRaphsonStatus` at the call site and returns `void`: on
`c1FailCloud` the solve for particle 0 ends in `fail_max_iter`, yet the
pass keeps the non-converged width `h = 1024` (ten doublings of the
initial guess) and density `rho = 1/768`, derives the pressure from that
unconverged density, and completes with no error indication. -/
theorem C1_gradh_failure_not_surfaced :
    gradHSolveStatus cubic1Ops 1 (1 / 1000000000) c1FailCloud 0 =
      NRStatus.fail_max_iter ∧
    (gradHEstimateDensity cubic1Ops 1 linEosP linEosCs (1 / 1000000000)
      c1FailCloud).h 0 = 1024 ∧
    (gradHEstimateDensity cubic1Ops 1 linEosP linEosCs (1 / 1000000000)
      c1FailCloud).rho 0 = 1 / 768 ∧
    (gradHEstimateDensity cubic1Ops 1 linEosP linEosCs (1 / 1000000000)
      c1FailCloud).p 0 = 5 / 384 := by
  have hrho : c1FailCloud.rho 0 = 0 := rfl
  have hOm : c1FailCloud.Omega 0 = 0 := rfl
  have hh : c1FailCloud.h 0 = 1 := rfl
  refine ⟨?_, ?_, ?_, ?_⟩ <;>
    simp only [gradHSolveStatus, gradHEstimateDensity, forEach, finRange_one,
      List.foldl_cons, List.foldl_nil, gradHDensityStep, gradHDivStep,
      hrho, hOm, hh, c1_solve] <;>
    norm_num [c1FailCloud, linEosP, linEosCs, Function.update_same]

/-- C2 counterexample: the only particle of `c2FixedCloud` is fixed, yet
`estimate_density` of both estimators overwrites its velocity divergence
(the second pass carries no `fixed` check), so not every field of a fixed
particle is left unchanged. -/
theorem C2_counterexample :
    c2FixedCloud.fixed 0 = true ∧
    (classicEstimateDensity cubic1Ops linEosP linEosCs 1
      c2FixedCloud).div_v 0 ≠ c2FixedCloud.div_v 0 ∧
    (gradHEstimateDensity cubic1Ops 1 linEosP linEosCs (1 / 1000000000)
      c2FixedCloud).div_v 0 ≠ c2FixedCloud.div_v 0 := by
  refine ⟨rfl, ?_, ?_⟩ <;>
    norm_num [classicEstimateDensity, gradHEstimateDensity, forEach,
      finRange_one, classicDensityStep, classicDivStep, gradHDensityStep,
      gradHDivStep, c2FixedCloud, Function.update_same]

/-- C4 counterexample: on `c4Cloud` the pairwise acceleration accumulated
by the Grad-H `estimate_forces` for particle 0 and neighbour 1 is `-1/2`
(the `p_a` pressure term is weighted by the gradient at width `h_a`
alone), whereas the spec's all-averaged formula gives `-21/64`; the force
term therefore does not use the averaged gradient throughout. -/
theorem C4_counterexample :
    gradHPairAccel cubic1Ops zeroVisc c4Cloud 0 1 0 ≠
      specAvgPairAccel cubic1Ops zeroVisc c4Cloud 0 1 0 := by
  norm_num [gradHPairAccel, specAvgPairAccel, cubic1Ops, c4Cloud, zeroVisc,
    safe_divide, cubicUnitDeriv, Pi.sub_apply]

/-- C5 counterexample: a call with tolerance `eps = 5` on a function of
constant residual `10` and constant derivative `1`.  The derivative is
smaller than the tolerance, so the claim predicts `fail_zero_deriv`; the
solver instead performs the update and returns `fail_max_iter`, because
the zero-derivative test compares against the machine constant
`small_number_v` (here `10^-6`), not against `eps`. -/
theorem C5_counterexample :
    |(1 : ℚ)| < 5 ∧
    (newton_raphson (fun (s : Unit) _ => (s, 10, 1)) (1 / 1000000) 5 1
      () 0).1 = NRStatus.fail_max_iter := by
  constructor
  · norm_num
  · rw [show (1 : ℕ) = 0 + 1 from rfl, newton_raphson_succ]
    norm_num [newton_raphson_zero]

/-- C6 counterexample: on `f = id` over the bracket `[1, 2]` with
`eps = 1`, both residuals are positive (no sign change), yet `bisection`
returns `success`, because `|f(min_x)| ≤ eps` is checked before any sign
test. -/
theorem C6_counterexample :
    sign ((fun x => x) (1 : ℚ)) = sign ((fun x => x) (2 : ℚ)) ∧
    (bisection (fun x => x) 1 2 1 1).1 = BisectStatus.success := by
  constructor
  · norm_num [sign]
  · norm_num [bisection]

/-- C6 (amended): when the residuals at both bracket ends share the same
sign, `bisection` returns `failure_sign` — provided neither endpoint
residual is already within the tolerance (those cases return `success`
first) and at least one iteration is permitted (with `max_iter = 0` the
loop body never runs and `fail_max_iter` is returned).  The original
bracket is handed back unchanged. -/
theorem C6_same_sign_failure (f : ℚ → ℚ) (min_x max_x eps : ℚ)
    (max_iter : ℕ) (hsign : sign (f min_x) = sign (f max_x))
    (hmin : ¬|f min_x| ≤ eps) (hmax : ¬|f max_x| ≤ eps)
    (hiter : 1 ≤ max_iter) :
    bisection f min_x max_x eps max_iter =
      (.failure_sign, min_x, max_x) := by
  obtain ⟨m, rfl⟩ : ∃ m, max_iter = m + 1 := ⟨max_iter - 1, by omega⟩
  unfold bisection
  rw [if_neg hmin, if_neg hmax, bisectionLoop_succ, if_pos hsign.symm]

/-- Witness for C6: `f = id` on `[1, 2]` with a tolerance of `0`. -/
theorem C6_same_sign_failure_witness :
    bisection (fun x => x) 1 2 0 1 = (.failure_sign, 1, 2) :=
  C6_same_sign_failure (fun x => x) 1 2 0 1 (by norm_num [sign])
    (by norm_num) (by norm_num) (by norm_num)

/-- C10: for an ordered input bracket, a `success` return of `bisection`
has collapsed the bracket (`min_x = max_x` on return) onto a point whose
residual is within tolerance, and every non-`success` return leaves the
bracket ordered (`BisectOk` spells out exactly this property). -/
theorem C10_success_collapses_bracket (f : ℚ → ℚ)
    (min_x max_x eps : ℚ) (max_iter : ℕ) (hab : min_x ≤ max_x) :
    BisectOk f eps (bisection f min_x max_x eps max_iter) := by
  unfold bisection
  by_cases hmin : |f min_x| ≤ eps
  · rw [if_pos hmin]
    exact ⟨fun _ => ⟨rfl, hmin⟩, fun _ => le_refl _⟩
  · rw [if_neg hmin]
    by_cases hmax : |f max_x| ≤ eps
    · rw [if_pos hmax]
      exact ⟨fun _ => ⟨rfl, hmax⟩, fun _ => le_refl _⟩
    · rw [if_neg hmax]
      exact bisectionLoop_ok f eps max_iter min_x max_x hab

/-- Witness for C10 at a concrete ordered bracket. -/
theorem C10_success_collapses_bracket_witness :
    BisectOk (fun x => x - 3) 0 (bisection (fun x => x - 3) 1 2 0 5) :=
  C10_success_collapses_bracket (fun x => x - 3) 1 2 0 5 (by norm_num)

/-- C9: for a non-empty range and a positive worker-thread count,
`StaticPartitioner::blockify` spans exactly the input range and its grain
size is the ceiling of size over thread count: the least `g` with
`size ≤ g * num_threads` (characterised by the last two conjuncts). -/
theorem C9_static_grain_ceiling (num_threads first last : ℕ)
    (ht : 0 < num_threads) (hne : first < last) :
    (staticBlockify num_threads first last).first = first ∧
    (staticBlockify num_threads first last).last = last ∧
    last - first ≤
      (staticBlockify num_threads first last).grain * num_threads ∧
    ((staticBlockify num_threads first last).grain - 1) * num_threads <
      last - first := by
  refine ⟨rfl, rfl, ?_, ?_⟩
  · simp only [staticBlockify, divide_up]
    have hdm := Nat.div_add_mod (last - first + num_threads - 1) num_threads
    have hmod := Nat.mod_lt (last - first + num_threads - 1) ht
    rw [mul_comm]
    generalize num_threads * ((last - first + num_threads - 1) /
      num_threads) = P at hdm ⊢
    omega
  · simp only [staticBlockify, divide_up]
    have hdm := Nat.div_add_mod (last - first + num_threads - 1) num_threads
    have hmod := Nat.mod_lt (last - first + num_threads - 1) ht
    rw [Nat.sub_mul, one_mul, mul_comm]
    generalize num_threads * ((last - first + num_threads - 1) /
      num_threads) = P at hdm ⊢
    omega

/-- Witness for C9: eight particles over three worker threads give grain
`3 = ceil(8 / 3)`. -/
theorem C9_static_grain_ceiling_witness :
    (staticBlockify 3 0 8).first = 0 ∧ (staticBlockify 3 0 8).last = 8 ∧
    8 - 0 ≤ (staticBlockify 3 0 8).grain * 3 ∧
    ((staticBlockify 3 0 8).grain - 1) * 3 < 8 - 0 :=
  C9_static_grain_ceiling 3 0 8 (by norm_num) (by norm_num)

/-- C5 (amended): a `newton_raphson` run is characterised by the Newton
orbit `x_(k+1) = x_k - residual/derivative` (`nrOrbit`): it returns
`success` at the first round whose residual is within `eps` (checked
before any update), `fail_zero_deriv` at the first round whose derivative
has magnitude at most the machine constant `small_number_v` — not the
`eps` argument, which the original claim said — and `fail_max_iter` when
`max_iter` rounds pass without either condition. -/
theorem C5_newton_raphson_behaviour {σ : Type} (f : σ → ℚ → σ × ℚ × ℚ)
    (small eps : ℚ) (n j : ℕ) (s : σ) (x : ℚ) :
    ((∀ k < n, eps < |nrRes f s x k| ∧ small < |nrDer f s x k|) →
      newton_raphson f small eps n s x =
        (.fail_max_iter, nrOrbit f s x n)) ∧
    (j < n → (∀ k < j, eps < |nrRes f s x k| ∧ small < |nrDer f s x k|) →
      |nrRes f s x j| ≤ eps →
      newton_raphson f small eps n s x =
        (.success, (f (nrOrbit f s x j).1 (nrOrbit f s x j).2).1,
          (nrOrbit f s x j).2)) ∧
    (j < n → (∀ k < j, eps < |nrRes f s x k| ∧ small < |nrDer f s x k|) →
      eps < |nrRes f s x j| → |nrDer f s x j| ≤ small →
      newton_raphson f small eps n s x =
        (.fail_zero_deriv, (f (nrOrbit f s x j).1 (nrOrbit f s x j).2).1,
          (nrOrbit f s x j).2)) :=
  ⟨nr_run_fail_max f small eps n s x,
    fun hj hb hh => nr_run_success f small eps n j s x hj hb hh,
    fun hj hb hr hd => nr_run_zero_deriv f small eps n j s x hj hb hr hd⟩

/-- Witness for C5 (amended): on the function of residual `x` and constant
derivative `1`, started at `x = 3` with `eps = 1` and `small = 1/2`, the
solver updates once (`x := 3 - 3/1 = 0`) and then succeeds. -/
theorem C5_newton_raphson_behaviour_witness :
    newton_raphson (fun (s : Unit) x => (s, x, 1)) (1 / 2) 1 2 () 3 =
      (.success, (), 0) := by
  have h := (C5_newton_raphson_behaviour (fun (s : Unit) x => (s, x, 1))
    (1 / 2) 1 2 1 () 3).2.1 (by norm_num) ?_ ?_
  · rw [h]
    rw [show (1 : ℕ) = 0 + 1 from rfl, nrOrbit_succ, nrOrbit_zero]
    norm_num
  · intro k hk
    interval_cases k
    rw [nrRes_zero, nrDer_zero]
    norm_num
  · rw [show (1 : ℕ) = 0 + 1 from rfl]
    unfold nrRes
    rw [nrOrbit_succ, nrOrbit_zero]
    norm_num

/-! ## Helper lemmas on the estimator passes -/

theorem foldl_invariant {α β : Type} (P : α → Prop) (step : α → β → α)
    (hstep : ∀ c b, P c → P (step c b)) :
    ∀ (l : List β) (c : α), P c → P (l.foldl step c)
  | [], _, hc => hc
  | b :: t, c, hc =>
    foldl_invariant P step hstep t (step c b) (hstep c b hc)

/-- Fields of a fixed particle `a` that the first density pass of the
fixed-width estimator can never change. -/
theorem classicDensityStep_fixed {dim n : ℕ} (K : KernelOps dim)
    (eosP eosCs : Cloud dim n → Fin n → ℚ) (h_ab : ℚ)
    (c : Cloud dim n) (b a : Fin n) (ha : c.fixed a = true) :
    (classicDensityStep K eosP eosCs h_ab c b).fixed = c.fixed ∧
    (classicDensityStep K eosP eosCs h_ab c b).h a = c.h a ∧
    (classicDensityStep K eosP eosCs h_ab c b).rho a = c.rho a ∧
    (classicDensityStep K eosP eosCs h_ab c b).p a = c.p a ∧
    (classicDensityStep K eosP eosCs h_ab c b).cs a = c.cs a ∧
    (classicDensityStep K eosP eosCs h_ab c b).Omega a = c.Omega a ∧
    (classicDensityStep K eosP eosCs h_ab c b).div_v a = c.div_v a ∧
    (classicDensityStep K eosP eosCs h_ab c b).dv_dt a = c.dv_dt a := by
  unfold classicDensityStep
  by_cases hb : c.fixed b
  · simp [hb]
  · have hab : a ≠ b := fun he => hb (he ▸ ha)
    simp [hb, Function.update_noteq hab]

/-- The divergence pass of the fixed-width estimator writes only `div_v`. -/
theorem classicDivStep_fields {dim n : ℕ} (K : KernelOps dim) (h_ab : ℚ)
    (c : Cloud dim n) (b : Fin n) :
    (classicDivStep K h_ab c b).fixed = c.fixed ∧
    (classicDivStep K h_ab c b).h = c.h ∧
    (classicDivStep K h_ab c b).rho = c.rho ∧
    (classicDivStep K h_ab c b).p = c.p ∧
    (classicDivStep K h_ab c b).cs = c.cs ∧
    (classicDivStep K h_ab c b).Omega = c.Omega ∧
    (classicDivStep K h_ab c b).dv_dt = c.dv_dt :=
  ⟨rfl, rfl, rfl, rfl, rfl, rfl, rfl⟩

/-- Fields of a fixed particle `a` that the force pass of the fixed-width
estimator can never change. -/
theorem classicForcesStep_fixed {dim n : ℕ} (K : KernelOps dim)
    (visc : Cloud dim n → Fin n → Fin n → ℚ) (h_ab : ℚ)
    (c : Cloud dim n) (b a : Fin n) (ha : c.fixed a = true) :
    (classicForcesStep K visc h_ab c b).fixed = c.fixed ∧
    (classicForcesStep K visc h_ab c b).dv_dt a = c.dv_dt a := by
  unfold classicForcesStep
  by_cases hb : c.fixed b
  · simp [hb]
  · have hab : a ≠ b := fun he => hb (he ▸ ha)
    simp [hb, Function.update_noteq hab]

/-- Fields of a fixed particle `a` that the width-solve pass of the
variable-width estimator can never change. -/
theorem gradHDensityStep_fixed {dim n : ℕ} (K : KernelOps dim) (eta : ℚ)
    (eosP eosCs : Cloud dim n → Fin n → ℚ) (small : ℚ)
    (c : Cloud dim n) (b a : Fin n) (ha : c.fixed a = true) :
    (gradHDensityStep K eta eosP eosCs small c b).fixed = c.fixed ∧
    (gradHDensityStep K eta eosP eosCs small c b).h a = c.h a ∧
    (gradHDensityStep K eta eosP eosCs small c b).rho a = c.rho a ∧
    (gradHDensityStep K eta eosP eosCs small c b).p a = c.p a ∧
    (gradHDensityStep K eta eosP eosCs small c b).cs a = c.cs a ∧
    (gradHDensityStep K eta eosP eosCs small c b).Omega a = c.Omega a ∧
    (gradHDensityStep K eta eosP eosCs small c b).div_v a = c.div_v a ∧
    (gradHDensityStep K eta eosP eosCs small c b).dv_dt a = c.dv_dt a := by
  unfold gradHDensityStep
  by_cases hb : c.fixed b
  · simp [hb]
  · have hab : a ≠ b := fun he => hb (he ▸ ha)
    simp [hb, Function.update_noteq hab]

/-- The divergence pass of the variable-width estimator writes only
`div_v`. -/
theorem gradHDivStep_fields {dim n : ℕ} (K : KernelOps dim)
    (c : Cloud dim n) (b : Fin n) :
    (gradHDivStep K c b).fixed = c.fixed ∧
    (gradHDivStep K c b).h = c.h ∧
    (gradHDivStep K c b).rho = c.rho ∧
    (gradHDivStep K c b).p = c.p ∧
    (gradHDivStep K c b).cs = c.cs ∧
    (gradHDivStep K c b).Omega = c.Omega ∧
    (gradHDivStep K c b).dv_dt = c.dv_dt :=
  ⟨rfl, rfl, rfl, rfl, rfl, rfl, rfl⟩

/-- Fields of a fixed particle `a` that the force pass of the
variable-width estimator can never change. -/
theorem gradHForcesStep_fixed {dim n : ℕ} (K : KernelOps dim)
    (visc : Cloud dim n → Fin n → Fin n → ℚ)
    (c : Cloud dim n) (b a : Fin n) (ha : c.fixed a = true) :
    (gradHForcesStep K visc c b).fixed = c.fixed ∧
    (gradHForcesStep K visc c b).dv_dt a = c.dv_dt a := by
  unfold gradHForcesStep
  by_cases hb : c.fixed b
  · simp [hb]
  · have hab : a ≠ b := fun he => hb (he ▸ ha)
    simp [hb, Function.update_noteq hab]

/-- C2 (amended): a fixed particle is skipped by the density/width pass of
`estimate_density` and by `estimate_forces` of both estimators, so its
`h`, `rho`, `p`, `cs` (and `Omega` for the variable-width estimator) and
`dv_dt` are left unchanged; the velocity-divergence pass, however, has no
`fixed` check and does overwrite `div_v` of fixed particles (see the
counterexample), so `div_v` is deliberately absent from this list. -/
theorem C2_fixed_particle_fields_preserved {dim n : ℕ} (K : KernelOps dim)
    (eosP eosCs : Cloud dim n → Fin n → ℚ)
    (visc : Cloud dim n → Fin n → Fin n → ℚ) (h_ab eta small : ℚ)
    (c : Cloud dim n) (a : Fin n) (ha : c.fixed a = true) :
    ((classicEstimateDensity K eosP eosCs h_ab c).h a = c.h a ∧
      (classicEstimateDensity K eosP eosCs h_ab c).rho a = c.rho a ∧
      (classicEstimateDensity K eosP eosCs h_ab c).p a = c.p a ∧
      (classicEstimateDensity K eosP eosCs h_ab c).cs a = c.cs a) ∧
    (classicEstimateForces K visc h_ab c).dv_dt a = c.dv_dt a ∧
    ((gradHEstimateDensity K eta eosP eosCs small c).h a = c.h a ∧
      (gradHEstimateDensity K eta eosP eosCs small c).rho a = c.rho a ∧
      (gradHEstimateDensity K eta eosP eosCs small c).p a = c.p a ∧
      (gradHEstimateDensity K eta eosP eosCs small c).cs a = c.cs a ∧
      (gradHEstimateDensity K eta eosP eosCs small c).Omega a = c.Omega a) ∧
    (gradHEstimateForces K visc c).dv_dt a = c.dv_dt a := by
  refine ⟨?_, ?_, ?_, ?_⟩
  · have h1 := foldl_invariant
      (fun c' : Cloud dim n => c'.fixed a = true ∧ c'.h a = c.h a ∧
        c'.rho a = c.rho a ∧ c'.p a = c.p a ∧ c'.cs a = c.cs a)
      (classicDensityStep K eosP eosCs h_ab)
      (fun c' b hc' => by
        obtain ⟨hf, e1, e2, e3, e4⟩ := hc'
        obtain ⟨gf, g1, g2, g3, g4, _, _, _⟩ :=
          classicDensityStep_fixed K eosP eosCs h_ab c' b a hf
        exact ⟨by rw [gf]; exact hf, g1.trans e1, g2.trans e2,
          g3.trans e3, g4.trans e4⟩)
      (List.finRange n) c ⟨ha, rfl, rfl, rfl, rfl⟩
    have h2 := foldl_invariant
      (fun c' : Cloud dim n => c'.h a = c.h a ∧
        c'.rho a = c.rho a ∧ c'.p a = c.p a ∧ c'.cs a = c.cs a)
      (classicDivStep K h_ab)
      (fun c' b hc' => by
        obtain ⟨e1, e2, e3, e4⟩ := hc'
        obtain ⟨_, g1, g2, g3, g4, _, _⟩ := classicDivStep_fields K h_ab c' b
        exact ⟨(congrFun g1 a).trans e1, (congrFun g2 a).trans e2,
          (congrFun g3 a).trans e3, (congrFun g4 a).trans e4⟩)
      (List.finRange n) _ ⟨h1.2.1, h1.2.2.1, h1.2.2.2.1, h1.2.2.2.2⟩
    exact h2
  · exact (foldl_invariant
      (fun c' : Cloud dim n => c'.fixed a = true ∧ c'.dv_dt a = c.dv_dt a)
      (classicForcesStep K visc h_ab)
      (fun c' b hc' => by
        obtain ⟨hf, e1⟩ := hc'
        obtain ⟨gf, g1⟩ := classicForcesStep_fixed K visc h_ab c' b a hf
        exact ⟨by rw [gf]; exact hf, g1.trans e1⟩)
      (List.finRange n) c ⟨ha, rfl⟩).2
  · have h1 := foldl_invariant
      (fun c' : Cloud dim n => c'.fixed a = true ∧ c'.h a = c.h a ∧
        c'.rho a = c.rho a ∧ c'.p a = c.p a ∧ c'.cs a = c.cs a ∧
        c'.Omega a = c.Omega a)
      (gradHDensityStep K eta eosP eosCs small)
      (fun c' b hc' => by
        obtain ⟨hf, e1, e2, e3, e4, e5⟩ := hc'
        obtain ⟨gf, g1, g2, g3, g4, g5, _, _⟩ :=
          gradHDensityStep_fixed K eta eosP eosCs small c' b a hf
        exact ⟨by rw [gf]; exact hf, g1.trans e1, g2.trans e2,
          g3.trans e3, g4.trans e4, g5.trans e5⟩)
      (List.finRange n) c ⟨ha, rfl, rfl, rfl, rfl, rfl⟩
    have h2 := foldl_invariant
      (fun c' : Cloud dim n => c'.h a = c.h a ∧ c'.rho a = c.rho a ∧
        c'.p a = c.p a ∧ c'.cs a = c.cs a ∧ c'.Omega a = c.Omega a)
      (gradHDivStep K)
      (fun c' b hc' => by
        obtain ⟨e1, e2, e3, e4, e5⟩ := hc'
        obtain ⟨_, g1, g2, g3, g4, g5, _⟩ := gradHDivStep_fields K c' b
        exact ⟨(congrFun g1 a).trans e1, (congrFun g2 a).trans e2,
          (congrFun g3 a).trans e3, (congrFun g4 a).trans e4,
          (congrFun g5 a).trans e5⟩)
      (List.finRange n) _
      ⟨h1.2.1, h1.2.2.1, h1.2.2.2.1, h1.2.2.2.2.1, h1.2.2.2.2.2⟩
    exact h2
  · exact (foldl_invariant
      (fun c' : Cloud dim n => c'.fixed a = true ∧ c'.dv_dt a = c.dv_dt a)
      (gradHForcesStep K visc)
      (fun c' b hc' => by
        obtain ⟨hf, e1⟩ := hc'
        obtain ⟨gf, g1⟩ := gradHForcesStep_fixed K visc c' b a hf
        exact ⟨by rw [gf]; exact hf, g1.trans e1⟩)
      (List.finRange n) c ⟨ha, rfl⟩).2

/-- Witness for C2 (amended) on the concrete fixed-particle cloud. -/
theorem C2_fixed_particle_fields_preserved_witness :
    c2FixedCloud.fixed 0 = true ∧
    (classicEstimateDensity cubic1Ops linEosP linEosCs 1
      c2FixedCloud).rho 0 = c2FixedCloud.rho 0 ∧
    (gradHEstimateForces cubic1Ops zeroVisc c2FixedCloud).dv_dt 0 =
      c2FixedCloud.dv_dt 0 := by
  have h := C2_fixed_particle_fields_preserved cubic1Ops linEosP linEosCs
    zeroVisc 1 1 (1 / 1000000000) c2FixedCloud 0 rfl
  exact ⟨rfl, h.1.2.1, h.2.2.2⟩

/-- All of a cloud except the acceleration field, as one tuple.  Matching
the concurrency contract of the spec (section 5), strategies invoked during
a force pass read only prior-pass snapshot fields and never the `dv_dt`
array that the pass itself is writing. -/
def stripAccel {dim n : ℕ} (c : Cloud dim n) :=
  (c.fixed, c.h, c.m, c.rho, c.p, c.cs, c.Omega, c.div_v, c.r, c.v, c.nearby)

/-- Two clouds agreeing everywhere except possibly on `dv_dt`. -/
def eqExceptAccel {dim n : ℕ} (c1 c2 : Cloud dim n) : Prop :=
  stripAccel c1 = stripAccel c2

/-- A viscosity strategy honouring the spec's concurrency contract: its
pairwise term never reads the acceleration being accumulated. -/
def ReadsNoAccel {dim n : ℕ}
    (visc : Cloud dim n → Fin n → Fin n → ℚ) : Prop :=
  ∀ c1 c2 : Cloud dim n, eqExceptAccel c1 c2 →
    ∀ a b, visc c1 a b = visc c2 a b

theorem eqExceptAccel_fields {dim n : ℕ} {c1 c2 : Cloud dim n}
    (h : eqExceptAccel c1 c2) :
    c1.fixed = c2.fixed ∧ c1.h = c2.h ∧ c1.m = c2.m ∧ c1.rho = c2.rho ∧
    c1.p = c2.p ∧ c1.cs = c2.cs ∧ c1.Omega = c2.Omega ∧
    c1.div_v = c2.div_v ∧ c1.r = c2.r ∧ c1.v = c2.v ∧
    c1.nearby = c2.nearby := by
  simpa [eqExceptAccel, stripAccel, Prod.ext_iff] using h

theorem gradHForcesValue_congr {dim n : ℕ} (K : KernelOps dim)
    (visc : Cloud dim n → Fin n → Fin n → ℚ) (hv : ReadsNoAccel visc)
    {c1 c2 : Cloud dim n} (he : eqExceptAccel c1 c2) (x : Fin n) :
    gradHForcesValue K visc c1 x = gradHForcesValue K visc c2 x := by
  obtain ⟨_, hh, hm, hrho, hp, _, hOm, _, hr, _, hnb⟩ :=
    eqExceptAccel_fields he
  funext i
  simp only [gradHForcesValue, gradHPairAccel, hh, hm, hrho, hp, hOm, hr,
    hnb, hv c1 c2 he]

theorem classicForcesValue_congr {dim n : ℕ} (K : KernelOps dim)
    (visc : Cloud dim n → Fin n → Fin n → ℚ) (h_ab : ℚ)
    (hv : ReadsNoAccel visc)
    {c1 c2 : Cloud dim n} (he : eqExceptAccel c1 c2) (x : Fin n) :
    classicForcesValue K visc h_ab c1 x =
      classicForcesValue K visc h_ab c2 x := by
  obtain ⟨_, _, hm, hrho, hp, _, _, _, hr, _, hnb⟩ :=
    eqExceptAccel_fields he
  funext i
  simp only [classicForcesValue, classicPairAccel, hm, hrho, hp, hr, hnb,
    hv c1 c2 he]

theorem gradHForcesStep_strip {dim n : ℕ} (K : KernelOps dim)
    (visc : Cloud dim n → Fin n → Fin n → ℚ) (c : Cloud dim n) (b : Fin n) :
    eqExceptAccel (gradHForcesStep K visc c b) c := by
  unfold gradHForcesStep
  by_cases hb : c.fixed b <;> simp [hb, eqExceptAccel, stripAccel]

theorem classicForcesStep_strip {dim n : ℕ} (K : KernelOps dim)
    (visc : Cloud dim n → Fin n → Fin n → ℚ) (h_ab : ℚ)
    (c : Cloud dim n) (b : Fin n) :
    eqExceptAccel (classicForcesStep K visc h_ab c b) c := by
  unfold classicForcesStep
  by_cases hb : c.fixed b <;> simp [hb, eqExceptAccel, stripAccel]

/-- Through the variable-width force pass, a non-fixed particle's
acceleration ends up holding exactly `gradHForcesValue` of the pass-entry
cloud. -/
theorem gradH_forces_foldl_dv {dim n : ℕ} (K : KernelOps dim)
    (visc : Cloud dim n → Fin n → Fin n → ℚ) (hv : ReadsNoAccel visc)
    (c0 : Cloud dim n) (a : Fin n) (hfa : c0.fixed a = false) :
    ∀ (l : List (Fin n)) (c : Cloud dim n), eqExceptAccel c c0 →
      (a ∈ l ∨ c.dv_dt a = gradHForcesValue K visc c0 a) →
      (l.foldl (gradHForcesStep K visc) c).dv_dt a =
        gradHForcesValue K visc c0 a := by
  intro l
  induction l with
  | nil =>
    intro c _ hd
    rcases hd with h | h
    · exact absurd h (List.not_mem_nil a)
    · exact h
  | cons b t ih =>
    intro c hc hd
    simp only [List.foldl_cons]
    refine ih _ ((gradHForcesStep_strip K visc c b).trans hc) ?_
    have hfix : c.fixed = c0.fixed := (eqExceptAccel_fields hc).1
    rcases hd with hmem | hval
    · rcases List.mem_cons.1 hmem with rfl | hmt
      · right
        unfold gradHForcesStep
        rw [if_neg (by rw [hfix, hfa]; exact Bool.false_ne_true)]
        simp [Function.update_same, gradHForcesValue_congr K visc hv hc]
      · left; exact hmt
    · right
      unfold gradHForcesStep
      by_cases hfb : c.fixed b
      · simp only [if_pos hfb]; exact hval
      · by_cases hab : a = b
        · subst hab
          simp [if_neg hfb, Function.update_same,
            gradHForcesValue_congr K visc hv hc]
        · simp only [if_neg hfb]
          rw [Function.update_noteq hab]
          exact hval

/-- Through the fixed-width force pass, a non-fixed particle's
acceleration ends up holding exactly `classicForcesValue` of the
pass-entry cloud. -/
theorem classic_forces_foldl_dv {dim n : ℕ} (K : KernelOps dim)
    (visc : Cloud dim n → Fin n → Fin n → ℚ) (h_ab : ℚ)
    (hv : ReadsNoAccel visc)
    (c0 : Cloud dim n) (a : Fin n) (hfa : c0.fixed a = false) :
    ∀ (l : List (Fin n)) (c : Cloud dim n), eqExceptAccel c c0 →
      (a ∈ l ∨ c.dv_dt a = classicForcesValue K visc h_ab c0 a) →
      (l.foldl (classicForcesStep K visc h_ab) c).dv_dt a =
        classicForcesValue K visc h_ab c0 a := by
  intro l
  induction l with
  | nil =>
    intro c _ hd
    rcases hd with h | h
    · exact absurd h (List.not_mem_nil a)
    · exact h
  | cons b t ih =>
    intro c hc hd
    simp only [List.foldl_cons]
    refine ih _ ((classicForcesStep_strip K visc h_ab c b).trans hc) ?_
    have hfix : c.fixed = c0.fixed := (eqExceptAccel_fields hc).1
    rcases hd with hmem | hval
    · rcases List.mem_cons.1 hmem with rfl | hmt
      · right
        unfold classicForcesStep
        rw [if_neg (by rw [hfix, hfa]; exact Bool.false_ne_true)]
        simp [Function.update_same,
          classicForcesValue_congr K visc h_ab hv hc]
      · left; exact hmt
    · right
      unfold classicForcesStep
      by_cases hfb : c.fixed b
      · simp only [if_pos hfb]; exact hval
      · by_cases hab : a = b
        · subst hab
          simp [if_neg hfb, Function.update_same,
            classicForcesValue_congr K visc h_ab hv hc]
        · simp only [if_neg hfb]
          rw [Function.update_noteq hab]
          exact hval

/-- C7: for every non-fixed particle, the variable-width (Grad-H)
`estimate_forces` writes, into component 1 of `dv/dt`, the negated
pairwise sum minus the hard-coded `9.81` (the `gravity` constant), while
every other component receives the pairwise sum alone and the fixed-width
`estimate_forces` adds no such term to any component. -/
theorem C7_hardcoded_gravity {dim n : ℕ} (K : KernelOps dim)
    (visc : Cloud dim n → Fin n → Fin n → ℚ) (h_ab : ℚ)
    (c : Cloud dim n) (a : Fin n) (hdim : 1 < dim)
    (hv : ReadsNoAccel visc) (ha : c.fixed a = false) :
    (gradHEstimateForces K visc c).dv_dt a ⟨1, hdim⟩ =
      -(((c.nearby a (K.radius (c.h a))).map
        (fun b => gradHPairAccel K visc c a b ⟨1, hdim⟩)).sum) - gravity ∧
    (∀ j : Fin dim, (j : ℕ) ≠ 1 →
      (gradHEstimateForces K visc c).dv_dt a j =
        -(((c.nearby a (K.radius (c.h a))).map
          (fun b => gradHPairAccel K visc c a b j)).sum)) ∧
    (∀ j : Fin dim, (classicEstimateForces K visc h_ab c).dv_dt a j =
      -(((c.nearby a (K.radius h_ab)).map
        (fun b => classicPairAccel K visc h_ab c a b j)).sum)) := by
  have hg : (gradHEstimateForces K visc c).dv_dt a =
      gradHForcesValue K visc c a :=
    gradH_forces_foldl_dv K visc hv c a ha (List.finRange n) c rfl
      (Or.inl (List.mem_finRange a))
  have hcl : (classicEstimateForces K visc h_ab c).dv_dt a =
      classicForcesValue K visc h_ab c a :=
    classic_forces_foldl_dv K visc h_ab hv c a ha (List.finRange n) c rfl
      (Or.inl (List.mem_finRange a))
  refine ⟨?_, ?_, ?_⟩
  · rw [hg]
    unfold gradHForcesValue
    simp
  · intro j hj
    rw [hg]
    unfold gradHForcesValue
    simp [hj]
  · intro j
    rw [hcl]
    rfl

/-- Kernel operations used only to instantiate the estimator template in a
configuration where the neighbour query returns no particles, so that no
kernel member is ever evaluated. -/
def isolatedKernel2 : KernelOps 2 where
  value _ h := h
  grad _ _ := fun _ => 0
  radius h := 2 * h
  radiusDeriv _ _ := 0

/-- A free two-dimensional particle with no neighbours in range. -/
def c7Cloud : Cloud 2 1 where
  fixed := fun _ => false
  h := fun _ => 1
  m := fun _ => 1
  rho := fun _ => 1
  p := fun _ => 1
  cs := fun _ => 1
  Omega := fun _ => 1
  div_v := fun _ => 0
  r := fun _ => fun _ => 0
  v := fun _ => fun _ => 0
  dv_dt := fun _ => fun _ => 0
  nearby := fun _ _ => []

/-- Witness for C7: with no neighbours, the Grad-H estimator still writes
`-9.81` into component 1 of the particle's acceleration. -/
theorem C7_hardcoded_gravity_witness :
    (gradHEstimateForces isolatedKernel2 zeroVisc c7Cloud).dv_dt 0
        ⟨1, one_lt_two⟩ =
      -(((c7Cloud.nearby 0 (isolatedKernel2.radius (c7Cloud.h 0))).map
        (fun b => gradHPairAccel isolatedKernel2 zeroVisc c7Cloud 0 b
          ⟨1, one_lt_two⟩)).sum) - gravity :=
  (C7_hardcoded_gravity isolatedKernel2 zeroVisc 1 c7Cloud 0 one_lt_two
    (fun _ _ _ _ _ => rfl) rfl).1

/-! ## Helper lemmas on the kernel gradient -/

theorem vnorm_neg {d : ℕ} (r : Fin d → ℝ) : vnorm (-r) = vnorm r := by
  unfold vnorm
  congr 1
  refine Finset.sum_congr rfl fun i _ => ?_
  simp

theorem vnorm_zero {d : ℕ} : vnorm (fun _ : Fin d => (0 : ℝ)) = 0 := by
  simp [vnorm]

/-- Negating the displacement negates the kernel gradient (the scalar
factor depends on the displacement only through its norm). -/
theorem kernelGrad_neg (P : KernelProfile) {d : ℕ} (r : Fin d → ℝ)
    (h : ℝ) :
    kernelGrad P (-r) h = fun i => -kernelGrad P r h i := by
  funext i
  unfold kernelGrad
  rw [vnorm_neg]
  simp only [Pi.neg_apply]
  ring

/-- C8: for every supported kernel and width `h > 0`, the spatial gradient
is antisymmetric in the displacement, and at zero displacement it is the
zero vector thanks to the safe-division convention. -/
theorem C8_grad_antisymmetric (P : KernelProfile)
    (hP : P ∈ supportedKernels) (d : ℕ) (h : ℝ) (r : Fin d → ℝ)
    (hh : 0 < h) :
    kernelGrad P r h = (fun i => -kernelGrad P (-r) h i) ∧
    kernelGrad P (fun _ : Fin d => (0 : ℝ)) h = fun _ => 0 := by
  constructor
  · rw [kernelGrad_neg]
    funext i
    simp
  · funext i
    unfold kernelGrad safe_divide
    rw [vnorm_zero]
    simp

/-- Witness for C8 at the Gaussian kernel in two dimensions. -/
theorem C8_grad_antisymmetric_witness :
    gaussianKernel ∈ supportedKernels ∧ (0 : ℝ) < 1 ∧
    (kernelGrad gaussianKernel (fun _ : Fin 2 => (1 : ℝ)) 1 =
      (fun i => -kernelGrad gaussianKernel (-fun _ : Fin 2 => (1 : ℝ)) 1 i) ∧
      kernelGrad gaussianKernel (fun _ : Fin 2 => (0 : ℝ)) 1 = fun _ => 0) :=
  ⟨by simp [supportedKernels], one_pos,
    C8_grad_antisymmetric gaussianKernel (by simp [supportedKernels]) 2 1
      (fun _ => 1) one_pos⟩

/-- C4 (amended): in the Grad-H pairwise force accumulation only the
artificial-viscosity term uses the averaged kernel gradient
`grad_ab = avg(grad W(r, h_a), grad W(r, h_b))`; the `p_a` and `p_b`
pressure terms use the gradients at widths `h_a` and `h_b` respectively
(first conjunct, the accumulated term spelled out).  The averaged gradient
itself does satisfy the momentum-conservation symmetry
`grad W_ab = -grad W_ba` under the swap of the two particles, i.e. under
negating the displacement and exchanging the two widths (second
conjunct). -/
theorem C4_avg_gradient_only_viscosity {dim n : ℕ} (K : KernelOps dim)
    (visc : Cloud dim n → Fin n → Fin n → ℚ) (c : Cloud dim n)
    (a b : Fin n) (i : Fin dim) (P : KernelProfile) (d : ℕ)
    (r : Fin d → ℝ) (ha hb : ℝ) (j : Fin d) :
    gradHPairAccel K visc c a b i =
      c.m b * (c.p a / (c.Omega a * c.rho a ^ 2) *
          K.grad (c.r a - c.r b) (c.h a) i +
        c.p b / (c.Omega b * c.rho b ^ 2) *
          K.grad (c.r a - c.r b) (c.h b) i +
        visc c a b * ((K.grad (c.r a - c.r b) (c.h a) i +
          K.grad (c.r a - c.r b) (c.h b) i) / 2)) ∧
    (kernelGrad P r ha j + kernelGrad P r hb j) / 2 =
      -((kernelGrad P (-r) hb j + kernelGrad P (-r) ha j) / 2) := by
  constructor
  · rfl
  · rw [kernelGrad_neg, kernelGrad_neg]
    ring

/-- C3: the Thomas-Couchman modified unit derivative is discontinuous at
the piece boundary `q = 1`: its limit from below is `-3/4` (the value of
the `[2/3, 1)` piece extended to the boundary) while the `[1, 2)` piece
gives `+3/4` at `q = 1` — the sign of that outer piece is flipped relative
to the cubic derivative the Thomas-Couchman kernel is documented to
modify, so the jump is `3/2`, far beyond any floating-point tolerance. -/
theorem C3_tc_deriv_discontinuous :
    Filter.Tendsto (fun q : ℝ => thomasCouchmanKernel.unitDeriv q)
      (nhdsWithin 1 (Set.Iio 1)) (nhds (-(3 / 4))) ∧
    thomasCouchmanKernel.unitDeriv 1 = 3 / 4 ∧
    cubicKernel.unitDeriv 1 = -(3 / 4) := by
  refine ⟨?_, ?_, ?_⟩
  · have hmem : Set.Ioo (2 / 3 : ℝ) 1 ∈ nhdsWithin 1 (Set.Iio 1) :=
      Ioo_mem_nhdsWithin_Iio (by norm_num)
    have hcong : (fun q : ℝ => thomasCouchmanKernel.unitDeriv q)
        =ᶠ[nhdsWithin 1 (Set.Iio 1)] (fun q : ℝ => tcDerivMid q) := by
      filter_upwards [hmem] with q hq
      have h1 : ¬(0 ≤ q ∧ q < 2 / 3) := by
        rintro ⟨-, hlt⟩
        exact absurd hq.1 (not_lt.2 hlt.le)
      simp [thomasCouchmanKernel, tcUnitDeriv, h1, hq.1.le, hq.2]
    rw [Filter.tendsto_congr' hcong]
    have hcont : Filter.Tendsto (fun q : ℝ => tcDerivMid q) (nhds 1)
        (nhds (tcDerivMid 1)) := by
      apply Continuous.tendsto
      unfold tcDerivMid
      continuity
    have hval : tcDerivMid (1 : ℝ) = -(3 / 4) := by
      unfold tcDerivMid
      norm_num
    exact hval ▸ hcont.mono_left nhdsWithin_le_nhds
  · norm_num [thomasCouchmanKernel, tcUnitDeriv, tcDerivOuter]
  · norm_num [cubicKernel, cubicUnitDeriv]

end SPHQ
